import Mathlib

/-!
# Verification of the mysterio-cli configuration/secrets core

Shallow embedding of `src/index.mjs` (the configuration resolution and
synchronization engine of mysterio-cli).  JavaScript objects holding JSON
documents are embedded as association lists of string keys and JSON values;
the JS object spread `\x7b...a, ...b\x7d` (later keys win) is embedded as
`spread`.  Stateful commands (push / pull / sync / delete / env create) are
embedded as explicit state-passing functions over the pair of stores
(local config directory, AWS Secrets Manager record).
-/

set_option autoImplicit false

namespace MysterioCli

/-- A JSON value, as stored in configuration documents and secret payloads. -/
inductive JVal where
  | jnull : JVal
  | jbool : Bool → JVal
  | jnum : Int → JVal
  | jstr : String → JVal
  | jarr : List JVal → JVal
  | jobj : List (String × JVal) → JVal

/-- A configuration document: a JS object seen as an association list of
string keys and JSON values (first occurrence of a key is its binding). -/
abbrev Doc := List (String × JVal)

/-- Key lookup in a document, JS property access `doc[key]`. -/
def lookupD : Doc → String → Option JVal
  | [], _ => none
  | (k, v) :: rest, key => if k == key then some v else lookupD rest key

/-- JS object spread `\x7b ...a, ...b \x7d`: every key of `a` and of `b` is
present; on a colliding key, `b`'s value wins.  (Keys of `a` keep their
position and take `b`'s value when `b` also binds them; keys only in `b`
are appended, as in JS insertion order.) -/
def spread (a b : Doc) : Doc :=
  a.map (fun p => (p.1, (lookupD b p.1).getD p.2)) ++
    b.filter (fun p => (lookupD a p.1).isNone)

/-! ## The `aws sync` command (`awsCommand`, case `sync`)

State: the parsed contents of the local `config/<env>.json` file (`none`
when absent or unparsable — the code catches the read/parse error and uses
the empty object) and the parsed payload of the AWS secret (`none` when the
secret does not exist — the code catches the fetch error and uses the empty
object).  The command merges the two with the chosen preference, writes the
merged document to the local file and then updates the AWS secret, falling
back to creating it when the update fails with ResourceNotFoundException. -/

/-- Local/remote store pair seen by `aws sync`. -/
structure SyncSt where
  localDoc : Option Doc
  remoteSecret : Option Doc

/-- Which remote write the sync performed on the AWS side. -/
inductive RemoteWrite where
  | created : RemoteWrite
  | updated : RemoteWrite

/-- `merged = prefer === 'local' ? \x7b...awsConfig, ...localConfig\x7d
: \x7b...localConfig, ...awsConfig\x7d` from the source. -/
def syncMergedDoc (prefer : String) (localConfig awsConfig : Doc) : Doc :=
  if prefer == "local" then spread awsConfig localConfig
  else spread localConfig awsConfig

/-- The `sync` case of `awsCommand`: read both sides (absent side = empty
object), merge with preference, write the merged document to the local file
and to the AWS secret (update, or create when the secret is absent). -/
def syncCmd (prefer : String) (st : SyncSt) : SyncSt × RemoteWrite :=
  let localConfig := st.localDoc.getD []
  let awsConfig := st.remoteSecret.getD []
  let merged := syncMergedDoc prefer localConfig awsConfig
  (⟨some merged, some merged⟩,
    match st.remoteSecret with
    | some _ => RemoteWrite.updated
    | none => RemoteWrite.created)

/-- Documents of the worked example in the claim: local side. -/
def exSyncLocal : Doc := [("x", .jnum 1), ("y", .jnum 2)]

/-- Documents of the worked example in the claim: remote side. -/
def exSyncRemote : Doc := [("y", .jnum 9), ("z", .jnum 3)]

/-! ## The `aws push` command (`awsCommand`, case `push`)

`push` reads the raw text of `config/<env>.json` and sends it verbatim as
the secret payload, so the stores are modelled at the raw-string level here.
The code first attempts `CreateSecretCommand`; AWS rejects a create of an
existing secret with `ResourceExistsException` without modifying it, which
is when the confirmation prompt (the decision capability) is consulted. -/

/-- Local/remote store pair seen by `aws push`: the raw text of the local
config file and the raw `SecretString` of the AWS secret. -/
structure PushSt where
  localFile : Option String
  remoteSecret : Option String

/-- Result reported by `aws push`. -/
inductive PushOutcome where
  | errNoLocal : PushOutcome
  | created : PushOutcome
  | updated : PushOutcome
  | cancelled : PushOutcome

/-- The `push` case of `awsCommand`.  `override` is the `--override` flag;
`decision` is the answer the confirmation prompt would return when it is
consulted. -/
def pushCmd (override decision : Bool) (st : PushSt) : PushSt × PushOutcome :=
  match st.localFile with
  | none => (st, .errNoLocal)
  | some content =>
    match st.remoteSecret with
    | none => ({ st with remoteSecret := some content }, .created)
    | some _ =>
      if !override then
        if decision then ({ st with remoteSecret := some content }, .updated)
        else (st, .cancelled)
      else ({ st with remoteSecret := some content }, .updated)

/-! ## The `aws pull` command (`awsCommand`, case `pull`)

`pull` fetches the secret payload (a parsed JSON document) and writes its
JSON rendering over the local config file; file contents are modelled at
the parsed-document level.  The existence check on the local file and the
confirmation prompt happen before the write. -/

/-- Local/remote store pair seen by `aws pull`. -/
structure PullSt where
  remoteSecret : Option Doc
  localFile : Option Doc

/-- Result reported by `aws pull`. -/
inductive PullOutcome where
  | errNoRemote : PullOutcome
  | pulled : PullOutcome
  | cancelled : PullOutcome

/-- The `pull` case of `awsCommand`: fetch the secret (absent ⇒ error),
then — unless `override` is set — if a local file exists, consult the
decision capability; declining cancels before any write. -/
def pullCmd (override decision : Bool) (st : PullSt) : PullSt × PullOutcome :=
  match st.remoteSecret with
  | none => (st, .errNoRemote)
  | some secrets =>
    match st.localFile with
    | some _ =>
      if !override then
        if decision then ({ st with localFile := some secrets }, .pulled)
        else (st, .cancelled)
      else ({ st with localFile := some secrets }, .pulled)
    | none => ({ st with localFile := some secrets }, .pulled)

/-! ## Secret deletion (`deleteSecret`)

`deleteSecret` first resolves a confirmation (`options.confirm === false`
forces it to `false` and skips the prompt; otherwise the prompt's answer is
used), then resolves the recovery window / force choice, then sends one
`DeleteSecretCommand`.  The model returns what reaches the remote store:
nothing (cancelled or validation failure) or the delete request's
parameters. -/

/-- Options of `deleteSecret` relevant to the deletion decision:
`noConfirm` is `options.confirm === false`, `force` is `options.force`,
`days` is `options.days` (absent when the flag was not given). -/
structure DeleteOpts where
  noConfirm : Bool
  force : Bool
  days : Option Int

/-- Answers the interactive prompts would give when consulted: the
are-you-sure confirmation, the force-immediate-deletion choice, and the
recovery-window input (whose prompt validates the range 7..30 itself). -/
structure DeletePrompts where
  confirmDelete : Bool
  forceDeletion : Bool
  daysInput : Int

/-- What `deleteSecret` does towards the remote store. -/
inductive DeleteOutcome where
  | cancelled : DeleteOutcome
  | invalidWindow : DeleteOutcome
  | request (forceImmediate : Bool) (recoveryWindow : Option Int) : DeleteOutcome
  deriving DecidableEq

/-- The decision logic of `deleteSecret`: confirmation gate, recovery
window validation (`days < 7 || days > 30` fails before any remote call),
then the request parameters `ForceDeleteWithoutRecovery` /
`RecoveryWindowInDays` exactly as the source assembles `deleteParams`. -/
def deleteSecretCmd (o : DeleteOpts) (p : DeletePrompts) : DeleteOutcome :=
  let deleteConfirmed := if o.noConfirm then false else p.confirmDelete
  if !deleteConfirmed then .cancelled
  else
    match o.days with
    | some d =>
      if d < 7 ∨ d > 30 then .invalidWindow
      else if o.force then .request true none
      else .request false (some d)
    | none =>
      if o.force then .request true none
      else if p.forceDeletion then .request true none
      else .request false (some p.daysInput)

/-- Modelled from the spec: the remote SecretStore's deletion transition
(§4.3, §6) — AWS Secrets Manager is an external collaborator with no code
under src/.  A force-immediate request makes the record DELETED; a
recovery-window request makes it PENDING_DELETION with deadline
`now + recoveryWindow` (time counted in days); nothing else reaches the
store, so its state is unchanged. -/
inductive SecretLifecycleState where
  | active : SecretLifecycleState
  | pendingDeletion (deadline : Int) : SecretLifecycleState
  | deleted : SecretLifecycleState
  deriving DecidableEq

/-- Modelled from the spec: applying what `deleteSecret` sent to an ACTIVE
secret record (§4.3 state machine). -/
def applyDeleteRequest (now : Int) : DeleteOutcome → SecretLifecycleState → SecretLifecycleState
  | .request true _, _ => .deleted
  | .request false (some w), _ => .pendingDeletion (now + w)
  | _, st => st

/-! ## The env output projection (`getConfig`, format `env`)

`getConfig` with `format = "env"` maps each `[key, value]` entry of the
document to `` `$\x7benvKey\x7d=$\x7benvValue\x7d` `` where
`envKey = key.replace(/([A-Z])/g, "_$1").toUpperCase()` and
`envValue = typeof value === "object" ? JSON.stringify(value) : value`,
and joins the lines with `"\n"`. -/

/-- One escaped character of a JSON string literal. -/
def escapeJsonChar (c : Char) : List Char :=
  if c = '"' then ['\\', '"']
  else if c = '\\' then ['\\', '\\']
  else if c = '\n' then ['\\', 'n']
  else if c = '\t' then ['\\', 't']
  else if c = '\r' then ['\\', 'r']
  else [c]

/-- JSON string-literal escaping. -/
def escapeJson (s : String) : String :=
  String.mk (s.data.foldr (fun c acc => escapeJsonChar c ++ acc) [])

mutual

/-- Compact JSON serialization, `JSON.stringify(v)` without spacing. -/
def jsonCompact : JVal → String
  | .jnull => "null"
  | .jbool true => "true"
  | .jbool false => "false"
  | .jnum n => toString n
  | .jstr s => "\"" ++ escapeJson s ++ "\""
  | .jarr xs => "[" ++ jsonCompactArr xs ++ "]"
  | .jobj fs => "\x7b" ++ jsonCompactFields fs ++ "\x7d"

/-- Comma-separated compact serialization of array elements. -/
def jsonCompactArr : List JVal → String
  | [] => ""
  | [v] => jsonCompact v
  | v :: rest => jsonCompact v ++ "," ++ jsonCompactArr rest

/-- Comma-separated compact serialization of object fields. -/
def jsonCompactFields : List (String × JVal) → String
  | [] => ""
  | [(k, v)] => "\"" ++ escapeJson k ++ "\":" ++ jsonCompact v
  | (k, v) :: rest =>
    "\"" ++ escapeJson k ++ "\":" ++ jsonCompact v ++ "," ++ jsonCompactFields rest

end

/-- JS `typeof v === "object"`: true for objects, arrays — and `null`. -/
def isTypeofObject : JVal → Bool
  | .jobj _ => true
  | .jarr _ => true
  | .jnull => true
  | _ => false

/-- JS template-literal coercion `String(v)` for the values that reach the
else-branch of the `typeof` test (primitives only; the object and array
cases are unreachable behind `isTypeofObject` and carry JS's coercions for
totality). -/
def jsPrimString : JVal → String
  | .jstr s => s
  | .jnum n => toString n
  | .jbool true => "true"
  | .jbool false => "false"
  | .jnull => "null"
  | .jarr _ => ""
  | .jobj _ => "[object Object]"

/-- `key.replace(/([A-Z])/g, "_$1")`: every ASCII uppercase letter gets an
underscore prefixed. -/
def insertUpperMarks (cs : List Char) : List Char :=
  cs.foldr (fun c acc => (if c.isUpper then ['_', c] else [c]) ++ acc) []

/-- `key.replace(/([A-Z])/g, "_$1").toUpperCase()` from the source. -/
def envKeyCode (k : String) : String :=
  String.mk ((insertUpperMarks k.data).map Char.toUpper)

/-- `typeof value === "object" ? JSON.stringify(value) : value` from the
source, as the text interpolated into the line. -/
def envValueCode (v : JVal) : String :=
  if isTypeofObject v then jsonCompact v else jsPrimString v

/-- The `env` format branch of `getConfig`: one `KEY=value` line per entry,
joined by newlines. -/
def toEnvFormat (doc : Doc) : String :=
  String.intercalate "\n" (doc.map (fun p => envKeyCode p.1 ++ "=" ++ envValueCode p.2))

/-- The spec's key rewriting, read from its words: prefix every uppercase
letter of the original key with an underscore, then uppercase the whole
key. -/
def specEnvKey (k : String) : String :=
  String.mk (k.data.foldr
    (fun c acc => (if c.isUpper then ['_', Char.toUpper c] else [Char.toUpper c]) ++ acc) [])

/-- The spec's notion of a scalar and its literal rendering: strings,
numbers, booleans and null are scalars, everything else is not. -/
def specScalarLiteral : JVal → Option String
  | .jstr s => some s
  | .jnum n => some (toString n)
  | .jbool true => some "true"
  | .jbool false => some "false"
  | .jnull => some "null"
  | _ => none

/-- The spec's value rendering: the literal when scalar, compact JSON
otherwise. -/
def specEnvValue (v : JVal) : String :=
  match specScalarLiteral v with
  | some s => s
  | none => jsonCompact v

/-- The spec's env projection, read from its words. -/
def specEnvFormat (doc : Doc) : String :=
  String.intercalate "\n" (doc.map (fun p => specEnvKey p.1 ++ "=" ++ specEnvValue p.2))

/-! ## Environment creation (`envCommand`, case `create`)

The config directory is modelled as a map from file name to the parsed
JSON content of the file (`none` when the file does not exist); every write
the command performs is a whole-file write of a JSON document, so document-
level store equality coincides with byte-level file equality. -/

/-- Point update of a file store. -/
def updStore (store : String → Option JVal) (file : String) (v : JVal) :
    String → Option JVal :=
  fun f => if f == file then some v else store f

/-- Fields of a JS object value (documents written by this tool are always
objects; spreading a non-object contributes no enumerable fields here). -/
def objFields : JVal → Doc
  | .jobj fs => fs
  | _ => []

/-- Result reported by `env create`. -/
inductive EnvCreateOutcome where
  | conflict : EnvCreateOutcome
  | templateMissing : EnvCreateOutcome
  | created : EnvCreateOutcome
  deriving DecidableEq

/-- The `create` case of `envCommand`: an existing `<name>.json` is a
conflict reported without touching any file; otherwise the document is
`\x7benvironment: name\x7d`, or the template document (read from
`<from>.json`, error when absent) with its `environment` field rewritten
to `name`. -/
def envCreateCmd (name : String) (template : Option String)
    (store : String → Option JVal) : (String → Option JVal) × EnvCreateOutcome :=
  let configFile := name ++ ".json"
  match store configFile with
  | some _ => (store, .conflict)
  | none =>
    match template with
    | none =>
      (updStore store configFile (.jobj [("environment", .jstr name)]), .created)
    | some t =>
      match store (t ++ ".json") with
      | none => (store, .templateMissing)
      | some tv =>
        (updStore store configFile
          (.jobj (spread (objFields tv) [("environment", .jstr name)])), .created)

/-! ## Environment listing (`envCommand`, case `list`)

`files.filter(f => f.endsWith('.json') && f !== 'default.json')
      .map(f => f.replace('.json', ''))`.
File names are modelled as lists of characters; JS `String.replace` with a
string pattern replaces only the first occurrence, which is modelled
exactly by `replaceFirstL`. -/

/-- JS `s.replace(pat, '')` for a string pattern: remove the first
occurrence of `pat`, leave the string unchanged when `pat` does not
occur. -/
def replaceFirstL (s pat : List Char) : List Char :=
  match s with
  | [] => []
  | c :: cs =>
    if pat.isPrefixOf (c :: cs) then (c :: cs).drop pat.length
    else c :: replaceFirstL cs pat

/-- The `list` case of `envCommand` (same filter in `createEnvironment`'s
`list`, `listEnvironments` and `getSecrets`): keep `.json` files other than
`default.json`, and strip the first `.json` occurrence from the name. -/
def listEnvsCmd (files : List (List Char)) : List (List Char) :=
  (files.filter (fun f => ".json".data.isSuffixOf f && !(f == "default.json".data))).map
    (fun f => replaceFirstL f ".json".data)

/-! ## Setting a local value (`setConfig` → `applyConfigValue`, local branch)

The local branch of `applyConfigValue` reads the whole document (empty when
the file is missing or unreadable), sniffs the incoming value string
(`value && (value.startsWith('\x7b') || value.startsWith('['))` ⇒ try
`JSON.parse`, keeping the string on failure), assigns the one key and
rewrites the whole file.  `JSON.parse` is an external JS builtin and enters
the model as an arbitrary parse function; the claim holds for every such
function. -/

/-- JS property assignment `configData[key] = v`: an existing binding is
updated in place, a new key is appended. -/
def setKeyJs : Doc → String → JVal → Doc
  | [], key, v => [(key, v)]
  | (k, w) :: rest, key, v =>
    if k == key then (k, v) :: rest else (k, w) :: setKeyJs rest key v

/-- JS `s.startsWith(pat)`, at the character level (the source only tests
the one-character patterns `'\x7b'` and `'['`). -/
def strStartsWith (s : String) (pat : List Char) : Bool :=
  pat.isPrefixOf s.data

/-- The local-target branch of `applyConfigValue`: value sniffing and
read-modify-write of the document.  The JS guard
`value && (value.startsWith('\x7b') || value.startsWith('['))` includes a
truthiness test on `value` (false exactly for the empty string). -/
def applyConfigLocal (parse : String → Option JVal) (key value : String)
    (existing : Option Doc) : Doc :=
  let configData := existing.getD []
  let parsedValue :=
    if !value.data.isEmpty &&
        (strStartsWith value ['\x7b'] || strStartsWith value ['[']) then
      match parse value with
      | some v => v
      | none => .jstr value
    else .jstr value
  setKeyJs configData key parsedValue

/-- The claim's description of the stored value: the string unchanged
unless it begins with a brace or a bracket and parses as JSON, in which
case the parsed value. -/
def claimStoredValue (parse : String → Option JVal) (value : String) : JVal :=
  if strStartsWith value ['\x7b'] || strStartsWith value ['['] then
    (parse value).getD (.jstr value)
  else .jstr value

/-! ## Theorems -/

@[simp] theorem lookupD_nil (key : String) : lookupD [] key = none := rfl

theorem lookupD_cons (k : String) (v : JVal) (rest : Doc) (key : String) :
    lookupD ((k, v) :: rest) key =
      if k == key then some v else lookupD rest key := rfl

theorem lookupD_append (a b : Doc) (key : String) :
    lookupD (a ++ b) key =
      match lookupD a key with
      | some v => some v
      | none => lookupD b key := by
  induction a with
  | nil => simp [lookupD]
  | cons p rest ih =>
    obtain ⟨k, v⟩ := p
    by_cases h : k == key <;> simp [lookupD_cons, h, ih]

theorem lookupD_map_override (a b : Doc) (key : String) :
    lookupD (a.map (fun p => (p.1, (lookupD b p.1).getD p.2))) key =
      (lookupD a key).map (fun v => (lookupD b key).getD v) := by
  induction a with
  | nil => simp [lookupD]
  | cons p rest ih =>
    obtain ⟨k, v⟩ := p
    by_cases h : k == key
    · have hk : k = key := by simpa using h
      subst hk
      simp [lookupD_cons, ih]
    · simp [lookupD_cons, h, ih]

theorem lookupD_filter_absent (a b : Doc) (key : String) :
    lookupD (b.filter (fun p => (lookupD a p.1).isNone)) key =
      if (lookupD a key).isNone then lookupD b key else none := by
  induction b with
  | nil => simp [lookupD]
  | cons p rest ih =>
    obtain ⟨k, v⟩ := p
    by_cases h : k == key
    · have hk : k = key := by simpa using h
      subst hk
      by_cases ha : (lookupD a k).isNone
      · simp [List.filter_cons, ha, lookupD_cons, ih]
      · simp [List.filter_cons, ha, lookupD_cons, ih]
    · by_cases ha : (lookupD a k).isNone
      · simp [List.filter_cons, ha, lookupD_cons, h, ih]
      · simp [List.filter_cons, ha, lookupD_cons, h, ih]

/-- Key-by-key characterization of the JS spread: the right operand's
binding wins, and a key absent on the right falls back to the left. -/
theorem lookupD_spread (a b : Doc) (key : String) :
    lookupD (spread a b) key =
      match lookupD b key with
      | some v => some v
      | none => lookupD a key := by
  rw [spread, lookupD_append, lookupD_map_override, lookupD_filter_absent]
  cases ha : lookupD a key <;> cases hb : lookupD b key <;> simp [ha, hb]

theorem lookupD_spread_isSome (a b : Doc) (key : String) :
    (lookupD (spread a b) key).isSome =
      ((lookupD a key).isSome || (lookupD b key).isSome) := by
  rw [lookupD_spread]
  cases ha : lookupD a key <;> cases hb : lookupD b key <;> simp [ha, hb]

/-- C1: `sync(env, \x7bprefer\x7d)` reads both documents (absent = empty
mapping), computes the shallow union in which the preferred side wins on
every colliding key, and writes that same merged document to both stores,
creating the remote secret when absent and updating it when present.  On
local=`\x7bx:1,y:2\x7d`, remote=`\x7by:9,z:3\x7d` the merged document is
`\x7bx:1,y:2,z:3\x7d` under prefer=LOCAL and `\x7bx:1,y:9,z:3\x7d`
otherwise. -/
theorem sync_union_with_preference :
    (∀ (prefer : String) (st : SyncSt),
      ∃ merged,
        syncCmd prefer st =
          (⟨some merged, some merged⟩,
            if st.remoteSecret.isSome then RemoteWrite.updated
            else RemoteWrite.created) ∧
        ∀ key, lookupD merged key =
          if prefer == "local" then
            match lookupD (st.localDoc.getD []) key with
            | some v => some v
            | none => lookupD (st.remoteSecret.getD []) key
          else
            match lookupD (st.remoteSecret.getD []) key with
            | some v => some v
            | none => lookupD (st.localDoc.getD []) key) ∧
    (∀ key,
      lookupD ((syncCmd "local" ⟨some exSyncLocal, some exSyncRemote⟩).1.localDoc.getD []) key =
        lookupD [("x", .jnum 1), ("y", .jnum 2), ("z", .jnum 3)] key) ∧
    (∀ key,
      lookupD ((syncCmd "aws" ⟨some exSyncLocal, some exSyncRemote⟩).1.localDoc.getD []) key =
        lookupD [("x", .jnum 1), ("y", .jnum 9), ("z", .jnum 3)] key) := by
  refine ⟨?_, ?_, ?_⟩
  · intro prefer st
    refine ⟨syncMergedDoc prefer (st.localDoc.getD []) (st.remoteSecret.getD []), ?_, ?_⟩
    · obtain ⟨ld, rd⟩ := st
      cases rd <;> simp [syncCmd]
    · intro key
      by_cases hp : (prefer == "local") = true <;>
        simp [syncMergedDoc, hp, lookupD_spread]
  · intro key
    have h1 : (syncCmd "local" ⟨some exSyncLocal, some exSyncRemote⟩).1.localDoc.getD [] =
        [("y", JVal.jnum 2), ("z", JVal.jnum 3), ("x", JVal.jnum 1)] := rfl
    rw [h1]
    by_cases hx : "x" = key
    · subst hx; rfl
    · by_cases hy : "y" = key
      · subst hy; rfl
      · by_cases hz : "z" = key
        · subst hz; rfl
        · simp [lookupD_cons, beq_iff_eq, hx, hy, hz]
  · intro key
    have h1 : (syncCmd "aws" ⟨some exSyncLocal, some exSyncRemote⟩).1.localDoc.getD [] =
        [("x", JVal.jnum 1), ("y", JVal.jnum 9), ("z", JVal.jnum 3)] := rfl
    rw [h1]

/-- C2: a sync never removes a key: every key present on either side before
the sync is present in the merged document written to both sides. -/
theorem sync_preserves_all_keys (prefer : String) (st : SyncSt) (key : String)
    (h : (lookupD (st.localDoc.getD []) key).isSome = true ∨
         (lookupD (st.remoteSecret.getD []) key).isSome = true) :
    ∃ merged, (syncCmd prefer st).1.localDoc = some merged ∧
      (syncCmd prefer st).1.remoteSecret = some merged ∧
      (lookupD merged key).isSome = true := by
  refine ⟨syncMergedDoc prefer (st.localDoc.getD []) (st.remoteSecret.getD []), rfl, rfl, ?_⟩
  unfold syncMergedDoc
  split <;> rw [lookupD_spread_isSome] <;> rcases h with h | h <;> simp [h]

/-- Witness for C2 at a concrete state: a key present only locally survives
the sync on both sides. -/
theorem sync_preserves_all_keys_witness :
    ∃ merged,
      (syncCmd "local" ⟨some [("a", .jnum 1)], none⟩).1.localDoc = some merged ∧
      (syncCmd "local" ⟨some [("a", .jnum 1)], none⟩).1.remoteSecret = some merged ∧
      (lookupD merged "a").isSome = true :=
  sync_preserves_all_keys "local" ⟨some [("a", .jnum 1)], none⟩ "a" (Or.inl rfl)

/-- C4: `push(env, \x7boverride\x7d)` writes the local document as the
remote secret's payload: absent remote ⇒ create; present remote with
`override = false` ⇒ consult the decision capability, and a declined
confirmation reports `cancelled` with no change; confirmed or
`override = true` ⇒ update with the local payload. -/
theorem push_create_update_cancel (override decision : Bool) (lf rs : Option String)
    (content : String) (h : lf = some content) :
    (rs = none →
      pushCmd override decision ⟨lf, rs⟩ = (⟨lf, some content⟩, .created)) ∧
    (rs.isSome = true → override = false → decision = false →
      pushCmd override decision ⟨lf, rs⟩ = (⟨lf, rs⟩, .cancelled)) ∧
    (rs.isSome = true → (override = true ∨ decision = true) →
      pushCmd override decision ⟨lf, rs⟩ = (⟨lf, some content⟩, .updated)) := by
  subst h
  refine ⟨?_, ?_, ?_⟩
  · intro hrs
    subst hrs
    rfl
  · intro hrs ho hd
    subst ho; subst hd
    obtain ⟨r, hr⟩ := Option.isSome_iff_exists.mp hrs
    subst hr
    rfl
  · intro hrs hod
    obtain ⟨r, hr⟩ := Option.isSome_iff_exists.mp hrs
    subst hr
    rcases hod with ho | hd
    · subst ho; rfl
    · subst hd; cases override <;> rfl

/-- Witness for C4 at concrete inputs: each of the three shapes (create on
absent remote, cancel on declined confirmation, update on `override`). -/
theorem push_create_update_cancel_witness :
    pushCmd false false ⟨some "a", none⟩ = (⟨some "a", some "a"⟩, .created) ∧
    pushCmd false false ⟨some "a", some "b"⟩ = (⟨some "a", some "b"⟩, .cancelled) ∧
    pushCmd true false ⟨some "a", some "b"⟩ = (⟨some "a", some "a"⟩, .updated) :=
  ⟨(push_create_update_cancel false false (some "a") none "a" rfl).1 rfl,
   (push_create_update_cancel false false (some "a") (some "b") "a" rfl).2.1 rfl rfl rfl,
   (push_create_update_cancel true false (some "a") (some "b") "a" rfl).2.2 rfl (Or.inl rfl)⟩

/-- C5: when the decision capability declines a conflict confirmation —
push onto an existing remote secret without `override`, or pull onto an
existing local document without `override` — the operation reports
`cancelled` and both stores are left exactly as they were. -/
theorem decline_leaves_stores_unmodified :
    (∀ (lf rs : Option String), lf.isSome = true → rs.isSome = true →
      pushCmd false false ⟨lf, rs⟩ = (⟨lf, rs⟩, .cancelled)) ∧
    (∀ (rs lf : Option Doc), rs.isSome = true → lf.isSome = true →
      pullCmd false false ⟨rs, lf⟩ = (⟨rs, lf⟩, .cancelled)) := by
  constructor
  · intro lf rs hl hr
    obtain ⟨c, hc⟩ := Option.isSome_iff_exists.mp hl
    obtain ⟨r, hr'⟩ := Option.isSome_iff_exists.mp hr
    subst hc; subst hr'
    rfl
  · intro rs lf hr hl
    obtain ⟨r, hr'⟩ := Option.isSome_iff_exists.mp hr
    obtain ⟨c, hc⟩ := Option.isSome_iff_exists.mp hl
    subst hc; subst hr'
    rfl

/-- Witness for C5 at concrete stores on both commands. -/
theorem decline_leaves_stores_unmodified_witness :
    pushCmd false false ⟨some "a", some "b"⟩ = (⟨some "a", some "b"⟩, .cancelled) ∧
    pullCmd false false ⟨some [("k", .jnum 1)], some [("m", .jnum 2)]⟩ =
      (⟨some [("k", .jnum 1)], some [("m", .jnum 2)]⟩, .cancelled) :=
  ⟨decline_leaves_stores_unmodified.1 (some "a") (some "b") rfl rfl,
   decline_leaves_stores_unmodified.2 (some [("k", .jnum 1)]) (some [("m", .jnum 2)]) rfl rfl⟩

/-- C3 counterexample: the claim as stated fails on the code.  With
`recoveryDays = 15` (in range) and `force` also set, the confirmed deletion
sends an immediate force delete, not a recovery-window delete, so the
record becomes DELETED rather than PENDING_DELETION; and with
`recoveryDays = 5` (out of range) but the confirmation declined, the
operation is cancelled without any ValidationError, refuting the stated
"exactly when". -/
theorem delete_recoveryDays_counterexample :
    deleteSecretCmd ⟨false, true, some 15⟩ ⟨true, false, 7⟩ = .request true none ∧
    applyDeleteRequest 0 (deleteSecretCmd ⟨false, true, some 15⟩ ⟨true, false, 7⟩)
      .active = .deleted ∧
    deleteSecretCmd ⟨false, false, some 5⟩ ⟨false, false, 7⟩ = .cancelled := by
  refine ⟨?_, ?_, ?_⟩ <;> rfl

/-- C3 (amended): for every call that passes the deletion confirmation gate
and in which `recoveryDays` is explicitly given, the operation fails with
ValidationError before any remote request exactly when `recoveryDays` is
outside `[7, 30]`; when it is in range and `force` is not set, it is the
recovery window of the remote delete request and the record enters
PENDING_DELETION with deadline `now + recoveryDays`; when it is in range
but `force` is set, the request is an immediate force deletion instead. -/
theorem delete_recoveryDays_validated (o : DeleteOpts) (p : DeletePrompts) (d : Int)
    (hdays : o.days = some d) (hnc : o.noConfirm = false)
    (hcd : p.confirmDelete = true) :
    (deleteSecretCmd o p = .invalidWindow ↔ (d < 7 ∨ d > 30)) ∧
    (7 ≤ d → d ≤ 30 → o.force = false →
      deleteSecretCmd o p = .request false (some d) ∧
      ∀ now, applyDeleteRequest now (deleteSecretCmd o p) .active =
        .pendingDeletion (now + d)) ∧
    (7 ≤ d → d ≤ 30 → o.force = true →
      deleteSecretCmd o p = .request true none) := by
  obtain ⟨nc, fc, ds⟩ := o
  obtain ⟨cd, pf, pd⟩ := p
  simp only [DeleteOpts.days, DeleteOpts.noConfirm, DeleteOpts.force,
    DeletePrompts.confirmDelete] at hdays hnc hcd ⊢
  subst hdays; subst hnc; subst hcd
  refine ⟨?_, ?_, ?_⟩
  · constructor
    · intro h
      by_cases hd : d < 7 ∨ d > 30
      · exact hd
      · exfalso
        cases fc <;> simp [deleteSecretCmd, hd] at h
    · intro hd
      simp [deleteSecretCmd, hd]
  · intro h7 h30 hf
    subst hf
    have hd : ¬(d < 7 ∨ d > 30) := by omega
    exact ⟨by simp [deleteSecretCmd, hd], fun now => by
      simp [deleteSecretCmd, hd, applyDeleteRequest]⟩
  · intro h7 h30 hf
    subst hf
    have hd : ¬(d < 7 ∨ d > 30) := by omega
    simp [deleteSecretCmd, hd]

/-- Witness for the amended C3 at `recoveryDays = 15`: the request carries
the 15-day window and the record enters PENDING_DELETION at `now + 15`. -/
theorem delete_recoveryDays_validated_witness :
    deleteSecretCmd ⟨false, false, some 15⟩ ⟨true, false, 7⟩ =
      .request false (some 15) ∧
    applyDeleteRequest 0 (deleteSecretCmd ⟨false, false, some 15⟩ ⟨true, false, 7⟩)
      .active = .pendingDeletion 15 := by
  have h := (delete_recoveryDays_validated ⟨false, false, some 15⟩ ⟨true, false, 7⟩ 15
    rfl rfl rfl).2.1 (by norm_num) (by norm_num) rfl
  exact ⟨h.1, by simpa using h.2 0⟩

/-- C9: with `options.confirm === false` (no-prompt mode), secret deletion
is always cancelled before any request reaches the remote store, whatever
the other options and whatever the prompts would have answered. -/
theorem delete_noconfirm_always_cancelled (force : Bool) (days : Option Int)
    (p : DeletePrompts) :
    deleteSecretCmd ⟨true, force, days⟩ p = .cancelled := rfl

theorem envKeyCode_eq_spec (k : String) : envKeyCode k = specEnvKey k := by
  unfold envKeyCode specEnvKey insertUpperMarks
  congr 1
  induction k.data with
  | nil => rfl
  | cons c cs ih =>
    by_cases hc : c.isUpper
    · simp only [List.foldr_cons, hc, if_true, List.map_append, ih]
      have h1 : Char.toUpper '_' = '_' := by decide
      simp [h1]
    · simp [List.foldr_cons, hc, ih]

theorem envValueCode_eq_spec (v : JVal) : envValueCode v = specEnvValue v := by
  cases v with
  | jbool b => cases b <;> rfl
  | _ => rfl

/-- C6: the env-format projection produces one `KEY=value` line per entry
joined by newlines, with the key rewritten to upper-snake-case (every
uppercase letter prefixed by an underscore, then the whole key uppercased)
and the value emitted as its literal if scalar and as its compact JSON
encoding if non-scalar — in particular, the code's `typeof`-based branch
(which sends `null` through `JSON.stringify`) coincides with the spec's
scalar/non-scalar split. -/
theorem toEnvFormat_eq_spec (doc : Doc) : toEnvFormat doc = specEnvFormat doc := by
  unfold toEnvFormat specEnvFormat
  congr 1
  induction doc with
  | nil => rfl
  | cons p rest ih =>
    simp only [List.map_cons, ih, envKeyCode_eq_spec, envValueCode_eq_spec]

/-- C7: creating an environment whose local document already exists fails
with the conflict outcome and performs no file mutation: the store — and
in particular the existing document — is returned exactly as it was. -/
theorem envCreate_conflict_no_mutation (name : String) (template : Option String)
    (store : String → Option JVal) (doc : JVal)
    (h : store (name ++ ".json") = some doc) :
    envCreateCmd name template store = (store, .conflict) := by
  simp [envCreateCmd, h]

/-- Witness for C7: creating `staging` over an existing `staging.json`
conflicts and leaves the store untouched. -/
theorem envCreate_conflict_no_mutation_witness :
    envCreateCmd "staging" none
        (fun f => if f == "staging.json" then some (.jobj []) else none) =
      ((fun f => if f == "staging.json" then some (.jobj []) else none), .conflict) :=
  envCreate_conflict_no_mutation "staging" none
    (fun f => if f == "staging.json" then some (.jobj []) else none) (.jobj []) rfl

theorem isPrefixOf_append_drop (p : List Char) :
    ∀ s, p.isPrefixOf s = true → s = p ++ s.drop p.length := by
  induction p with
  | nil => intro s _; simp
  | cons c cs ih =>
    intro s h
    cases s with
    | nil => simp [List.isPrefixOf] at h
    | cons d ds =>
      simp only [List.isPrefixOf, Bool.and_eq_true, beq_iff_eq] at h
      obtain ⟨h1, h2⟩ := h
      subst h1
      have := ih ds h2
      simpa using this

theorem replaceFirstL_decomp (pat : List Char) :
    ∀ s, replaceFirstL s pat = s ∨
      ∃ a b, s = a ++ pat ++ b ∧ replaceFirstL s pat = a ++ b := by
  intro s
  induction s with
  | nil => left; rfl
  | cons c cs ih =>
    by_cases h : pat.isPrefixOf (c :: cs) = true
    · right
      refine ⟨[], (c :: cs).drop pat.length, ?_, ?_⟩
      · simpa using isPrefixOf_append_drop pat (c :: cs) h
      · simp [replaceFirstL, h]
    · rcases ih with h1 | ⟨a, b, hab, hr⟩
      · left; simp [replaceFirstL, h, h1]
      · right
        exact ⟨c :: a, b, by simp [hab], by simp [replaceFirstL, h, hr]⟩

theorem append_eq_split {α : Type} (a b l : List α) (h : a ++ b = l) :
    ∃ n, n ≤ l.length ∧ a = l.take n ∧ b = l.drop n := by
  subst h
  exact ⟨a.length, by simp, by simp, by simp⟩

theorem stripped_name_ne_default (f : List Char)
    (hs : ".json".data.isSuffixOf f = true)
    (hne : ¬(f == "default.json".data) = true) :
    replaceFirstL f ".json".data ≠ "default".data := by
  intro hres
  rcases replaceFirstL_decomp ".json".data f with h1 | ⟨a, b, hab, hr⟩
  · rw [h1] at hres
    subst hres
    exact absurd hs (by decide)
  · rw [hr] at hres
    obtain ⟨n, hn, ha, hb⟩ := append_eq_split a b _ hres
    subst ha; subst hb
    rw [hab] at hs hne
    have hn7 : n ≤ 7 := by
      have h7 : ("default".data).length = 7 := rfl
      omega
    interval_cases n <;> revert hs hne <;> decide

theorem default_not_mem_listEnvs (files : List (List Char)) :
    "default".data ∉ listEnvsCmd files := by
  intro hmem
  unfold listEnvsCmd at hmem
  obtain ⟨f, hf, hres⟩ := List.mem_map.mp hmem
  obtain ⟨-, hcond⟩ := List.mem_filter.mp hf
  simp only [Bool.and_eq_true] at hcond
  obtain ⟨hs, hne⟩ := hcond
  exact stripped_name_ne_default f hs (by simpa using hne) hres

/-- C8: listing environments never includes `default`, whatever the
contents of the configuration directory — no `.json` file name other than
the excluded `default.json` can strip to the name `default`. -/
theorem list_never_includes_default (files : List (List Char)) :
    (listEnvsCmd files).contains "default".data = false := by
  cases hcon : (listEnvsCmd files).contains "default".data with
  | false => rfl
  | true =>
    exfalso
    obtain ⟨a, ha, hbeq⟩ := List.contains_iff_exists_mem_beq.mp hcon
    have hx : "default".data = a := by simpa using hbeq
    exact default_not_mem_listEnvs files (hx ▸ ha)

theorem lookupD_setKeyJs_self (d : Doc) (key : String) (v : JVal) :
    lookupD (setKeyJs d key v) key = some v := by
  induction d with
  | nil => simp [setKeyJs, lookupD]
  | cons p rest ih =>
    obtain ⟨k, w⟩ := p
    by_cases h : k == key <;> simp [setKeyJs, h, lookupD_cons, ih]

theorem lookupD_setKeyJs_other (d : Doc) (key k : String) (v : JVal)
    (hk : k ≠ key) :
    lookupD (setKeyJs d key v) k = lookupD d k := by
  induction d with
  | nil =>
    have hkk : (key == k) = false :=
      beq_eq_false_iff_ne.mpr (fun he => hk he.symm)
    simp [setKeyJs, lookupD, hkk]
  | cons p rest ih =>
    obtain ⟨k₁, w⟩ := p
    by_cases h : k₁ == key
    · have h1 : k₁ = key := by simpa using h
      subst h1
      have hkk : (k₁ == k) = false :=
        beq_eq_false_iff_ne.mpr (fun he => hk he.symm)
      simp [setKeyJs, lookupD_cons, hkk]
    · by_cases h2 : k₁ == k <;> simp [setKeyJs, h, lookupD_cons, h2, ih]

theorem applyConfigLocal_guard (value : String) :
    (!value.data.isEmpty &&
        (strStartsWith value ['\x7b'] || strStartsWith value ['['])) =
      (strStartsWith value ['\x7b'] || strStartsWith value ['[']) := by
  cases hd : value.data with
  | nil =>
    have h1 : strStartsWith value ['\x7b'] = false := by
      simp [strStartsWith, hd, List.isPrefixOf]
    have h2 : strStartsWith value ['['] = false := by
      simp [strStartsWith, hd, List.isPrefixOf]
    simp [hd, h1, h2]
  | cons c cs => simp [hd]

/-- C10: `setConfig` to the local document stores the incoming value
string unchanged unless it begins with a brace or a bracket and parses as
JSON, in which case the parsed value is stored; every other key of the
existing document is preserved by the read-modify-write; and the strings
`"123"`, `"true"` and `"null"` are stored as strings whatever the JSON
parser would say. -/
theorem setConfig_value_typing (parse : String → Option JVal) (key value : String)
    (existing : Option Doc) :
    (lookupD (applyConfigLocal parse key value existing) key =
      some (claimStoredValue parse value)) ∧
    (∀ k, k ≠ key → lookupD (applyConfigLocal parse key value existing) k =
      lookupD (existing.getD []) k) ∧
    lookupD (applyConfigLocal parse key "123" existing) key = some (.jstr "123") ∧
    lookupD (applyConfigLocal parse key "true" existing) key = some (.jstr "true") ∧
    lookupD (applyConfigLocal parse key "null" existing) key = some (.jstr "null") := by
  refine ⟨?_, ?_, ?_, ?_, ?_⟩
  · unfold applyConfigLocal claimStoredValue
    rw [applyConfigLocal_guard]
    by_cases h : (strStartsWith value ['\x7b'] || strStartsWith value ['[']) = true
    · cases hp : parse value <;> simp [h, hp, lookupD_setKeyJs_self]
    · simp only [Bool.not_eq_true] at h
      simp [h, lookupD_setKeyJs_self]
  · intro k hk
    unfold applyConfigLocal
    exact lookupD_setKeyJs_other _ key k _ hk
  · unfold applyConfigLocal
    have hg : (!("123" : String).data.isEmpty &&
        (strStartsWith "123" ['\x7b'] || strStartsWith "123" ['['])) = false := by
      decide
    rw [hg]
    simp [lookupD_setKeyJs_self]
  · unfold applyConfigLocal
    have hg : (!("true" : String).data.isEmpty &&
        (strStartsWith "true" ['\x7b'] || strStartsWith "true" ['['])) = false := by
      decide
    rw [hg]
    simp [lookupD_setKeyJs_self]
  · unfold applyConfigLocal
    have hg : (!("null" : String).data.isEmpty &&
        (strStartsWith "null" ['\x7b'] || strStartsWith "null" ['['])) = false := by
      decide
    rw [hg]
    simp [lookupD_setKeyJs_self]

/-- Witness for C10: with a parser that never succeeds and value `"v"`, the
untouched key `"b"` keeps its binding. -/
theorem setConfig_value_typing_witness :
    lookupD (applyConfigLocal (fun _ => none) "a" "v" (some [("b", .jnum 2)])) "b" =
      some (.jnum 2) :=
  (setConfig_value_typing (fun _ => none) "a" "v" (some [("b", .jnum 2)])).2.1 "b"
    (by decide)

end MysterioCli
